import Mathlib

/-!
# ComboLite sample plugin: the native function boundary (`nativelib.cpp`)

A shallow embedding of the five JNI entry points of
`sample-plugin/example/src/main/cpp/nativelib.cpp`.

* `jint` values are mathematical integers in the range `[-2^31, 2^31)`; the
  `+` of the target machine is the 32-bit two's-complement add, modelled on
  bit patterns (`Nat` modulo `2^32`).
* Native text (`std::string`, `const char *`) is a `String`.  The host hands
  out modified UTF-8, which never holds a zero byte, so appending a
  `const char *` appends the whole text of the host string.
* The host runtime (`JNIEnv`) is a test double: every call made through `env`
  is appended to a chronological trace of `Event`s, and the handles the host
  hands out are arbitrary functions of the history so far.  The array passed in
  is valid (non-null, with non-null elements) and the host calls on valid
  arguments succeed; an out-of-bounds element access fails.
* `sqrt` on `double` is floating-point arithmetic and is not embedded.
-/

namespace NativeLib

/-! ## 32-bit integers -/

/-- Number of bit patterns of a `jint`. -/
def twoPow32 : Nat := 4294967296

/-- Predicate: the integer is representable as a `jint`. -/
def IsJInt (a : Int) : Prop := -2147483648 ≤ a ∧ a < 2147483648

instance (a : Int) : Decidable (IsJInt a) := by
  unfold IsJInt; infer_instance

/-- Bit pattern of a `jint` (two's complement, as a natural below `2^32`). -/
def toBits (a : Int) : Nat := (a % 4294967296).toNat

/-- Signed value of a 32-bit pattern. -/
def ofBits (u : Nat) : Int :=
  if u < 2147483648 then (u : Int) else (u : Int) - 4294967296

/-- The 32-bit add of the target machine, on bit patterns. -/
def add32 (x y : Nat) : Nat := (x + y) % twoPow32

/-- Source: `addNumbers(env, this, a, b) { return a + b; }` on `jint`. -/
def addNumbers (a b : Int) : Int := ofBits (add32 (toBits a) (toBits b))

/-! ## The host test double -/

/-- One call made through `env`, with the arguments passed and the handle
returned. -/
inductive Event where
  | getArrayLength
  | getObjectArrayElement (index : Nat) (ref : Nat)
  | getStringUTFChars (ref : Nat) (chars : Nat)
  | releaseStringUTFChars (ref : Nat) (chars : Nat)
  | deleteLocalRef (ref : Nat)
  | newStringUTF (text : String)
  deriving DecidableEq, Repr

/-- A `jstring` local reference: the handle and the text of the string it
refers to. -/
structure JString where
  ref : Nat
  text : String
  deriving DecidableEq, Repr

/-- A `const char *` borrowed from the host: the address and the text found
there. -/
structure CharPtr where
  addr : Nat
  text : String
  deriving DecidableEq, Repr

/-- The host side of a call: the `String[]` passed by the caller and the
handles the host hands out, as functions of the calls made so far. -/
structure Host where
  elems : List String
  allocRef : List Event → Nat
  allocChars : List Event → Nat

/-- Host call `env->GetArrayLength(stringArray)`. -/
def GetArrayLength (host : Host) (trace : List Event) : Nat × List Event :=
  (host.elems.length, trace ++ [Event.getArrayLength])

/-- Host call `env->GetObjectArrayElement(stringArray, i)`; fails when the
index is out of bounds. -/
def GetObjectArrayElement (host : Host) (trace : List Event) (i : Nat) :
    Option (JString × List Event) :=
  match host.elems[i]? with
  | none => none
  | some s =>
    let r := host.allocRef trace
    some (⟨r, s⟩, trace ++ [Event.getObjectArrayElement i r])

/-- Host call `env->GetStringUTFChars(jstr, nullptr)`. -/
def GetStringUTFChars (host : Host) (trace : List Event) (jstr : JString) :
    CharPtr × List Event :=
  let c := host.allocChars trace
  (⟨c, jstr.text⟩, trace ++ [Event.getStringUTFChars jstr.ref c])

/-- Host call `env->ReleaseStringUTFChars(jstr, str)`. -/
def ReleaseStringUTFChars (trace : List Event) (jstr : JString) (str : CharPtr) :
    List Event :=
  trace ++ [Event.releaseStringUTFChars jstr.ref str.addr]

/-- Host call `env->DeleteLocalRef(jstr)`. -/
def DeleteLocalRef (trace : List Event) (jstr : JString) : List Event :=
  trace ++ [Event.deleteLocalRef jstr.ref]

/-- Host call `env->NewStringUTF(text)`: the new host string has that text. -/
def NewStringUTF (trace : List Event) (text : String) : String × List Event :=
  (text, trace ++ [Event.newStringUTF text])

/-! ## The exported functions -/

/-- Source: `stringFromJNI`, lines 10-16. -/
def stringFromJNI (trace : List Event) : String × List Event :=
  let hello : String := "Hello from C++"
  NewStringUTF trace hello

/-- Source: the `for` loop of `processStringArray`, lines 53-62, entered with
loop variable `i`, accumulator `result` and the calls made so far. -/
def processLoop (host : Host) (length : Nat) (i : Nat) (result : String)
    (trace : List Event) : Option (String × List Event) :=
  if i < length then
    match GetObjectArrayElement host trace i with
    | none => none
    | some (jstr, trace1) =>
      let (str, trace2) := GetStringUTFChars host trace1 jstr
      let result1 := if i > 0 then result ++ ", " else result
      let result2 := result1 ++ str.text
      let trace3 := ReleaseStringUTFChars trace2 jstr str
      let trace4 := DeleteLocalRef trace3 jstr
      processLoop host length (i + 1) result2 trace4
  else
    some (result, trace)
termination_by length - i

/-- Source: `processStringArray`, lines 44-65.  Returns the text of the new
host string and the trace of host calls, or `none` if a host call fails. -/
def processStringArray (host : Host) : Option (String × List Event) :=
  let (length, trace0) := GetArrayLength host []
  let result : String := "Processed strings: "
  match processLoop host length 0 result trace0 with
  | none => none
  | some (result1, trace1) => some (NewStringUTF trace1 result1)

/-! ## Reference descriptions of the trace and of the joined text -/

/-- The four host calls of one loop iteration on element `i`, with the local
reference `r` and the character buffer `c` handed out by the host. -/
def iterEvents (i r c : Nat) : List Event :=
  [Event.getObjectArrayElement i r, Event.getStringUTFChars r c,
   Event.releaseStringUTFChars r c, Event.deleteLocalRef r]

/-- The calls made when the loop is about to test `i < length` for the `j`-th
time (counting from zero). -/
def historyAt (host : Host) : Nat → List Event
  | 0 => [Event.getArrayLength]
  | j + 1 =>
    let h := historyAt host j
    let r := host.allocRef h
    let c := host.allocChars (h ++ [Event.getObjectArrayElement j r])
    h ++ iterEvents j r c

/-- The local reference the host hands out for element `j`. -/
def refAt (host : Host) (j : Nat) : Nat := host.allocRef (historyAt host j)

/-- The character buffer the host hands out for element `j`. -/
def charsAt (host : Host) (j : Nat) : Nat :=
  host.allocChars (historyAt host j ++ [Event.getObjectArrayElement j (refAt host j)])

/-- The calls of the loop over `n` elements, for given handles. -/
def loopEvents (r c : Nat → Nat) (n : Nat) : List Event :=
  (List.range n).flatMap (fun j => iterEvents j (r j) (c j))

/-- Each remaining element preceded by the separator. -/
def sepConcat : List String → String
  | [] => ""
  | s :: rest => ", " ++ s ++ sepConcat rest

/-! ## `getSystemInfo` and its build configuration -/

/-- The predefined macros the preprocessor sees when the library is built:
which of the tested macros are defined, the two version string literals, and
the value of `__cplusplus`. -/
structure BuildConfig where
  defClang : Bool
  clangVersion : String
  defGnuc : Bool
  gccVersion : String
  defAarch64 : Bool
  defArm : Bool
  defX86_64 : Bool
  defI386 : Bool
  cplusplus : Nat

/-- Source: `getSystemInfo`, lines 70-104; each `#ifdef` chain is a
conditional on the build configuration, `gccVersion` is `__VERSION__`, and
`std::to_string` renders the (non-negative) value of `__cplusplus` in decimal. -/
def getSystemInfo (cfg : BuildConfig) (trace : List Event) : String × List Event :=
  let info0 : String := "Native Library Info:\n"
  let info1 := info0 ++ "- Compiler: "
  let info2 :=
    if cfg.defClang then (info1 ++ "Clang ") ++ cfg.clangVersion
    else if cfg.defGnuc then (info1 ++ "GCC ") ++ cfg.gccVersion
    else info1 ++ "Unknown"
  let info3 := info2 ++ "\n- Architecture: "
  let info4 :=
    if cfg.defAarch64 then info3 ++ "ARM64"
    else if cfg.defArm then info3 ++ "ARM32"
    else if cfg.defX86_64 then info3 ++ "x86_64"
    else if cfg.defI386 then info3 ++ "x86"
    else info3 ++ "Unknown"
  let info5 := info4 ++ "\n- C++ Standard: "
  let info6 := info5 ++ toString cfg.cplusplus
  NewStringUTF trace info6

/-- The compiler part of the text, as the specification words it: Clang with
its version if `__clang__` is defined, otherwise GCC with its version if
`__GNUC__` is defined, otherwise `Unknown`. -/
def compilerText (cfg : BuildConfig) : String :=
  if cfg.defClang then "Clang " ++ cfg.clangVersion
  else if cfg.defGnuc then "GCC " ++ cfg.gccVersion
  else "Unknown"

/-- The architecture part of the text, as the specification words it: chosen
by the first defined macro among `__aarch64__`, `__arm__`, `__x86_64__`,
`__i386__`. -/
def archText (cfg : BuildConfig) : String :=
  if cfg.defAarch64 then "ARM64"
  else if cfg.defArm then "ARM32"
  else if cfg.defX86_64 then "x86_64"
  else if cfg.defI386 then "x86"
  else "Unknown"

/-- Number of lines of a text: one more than its line breaks. -/
def lineCount (s : String) : Nat := s.data.count '\n' + 1

/-! ## Projections of the result of `processStringArray` -/

/-- The text of the host string returned by `processStringArray`. -/
def resultText (host : Host) : Option String :=
  (processStringArray host).map Prod.fst

/-- The trace of host calls made by `processStringArray`. -/
def resultTrace (host : Host) : Option (List Event) :=
  (processStringArray host).map Prod.snd

/-! ## A resource tracker for the host test double -/

/-- Recogniser of `GetObjectArrayElement` calls. -/
def Event.isGetElement : Event → Bool
  | Event.getObjectArrayElement _ _ => true
  | _ => false

/-- Recogniser of `GetStringUTFChars` calls. -/
def Event.isGetChars : Event → Bool
  | Event.getStringUTFChars _ _ => true
  | _ => false

/-- Recogniser of `ReleaseStringUTFChars` calls. -/
def Event.isReleaseChars : Event → Bool
  | Event.releaseStringUTFChars _ _ => true
  | _ => false

/-- Recogniser of `DeleteLocalRef` calls. -/
def Event.isDeleteRef : Event → Bool
  | Event.deleteLocalRef _ => true
  | _ => false

/-- The array index read by a `GetObjectArrayElement` call. -/
def Event.elementIndex : Event → Option Nat
  | Event.getObjectArrayElement i _ => some i
  | _ => none

/-- What is borrowed from the host and not yet given back: element local
references, and character buffers as (string reference, address) pairs. -/
structure Tracker where
  refs : List Nat
  chars : List (Nat × Nat)
  deriving DecidableEq, Repr

/-- Nothing outstanding. -/
def Tracker.empty : Tracker := ⟨[], []⟩

/-- Effect of one host call on the outstanding borrows.  A release of
something that is not outstanding (never acquired, or released before) fails,
and so does reading the characters of a reference that is not live. -/
def Tracker.step (t : Tracker) : Event → Option Tracker
  | Event.getArrayLength => some t
  | Event.getObjectArrayElement _ r => some ⟨r :: t.refs, t.chars⟩
  | Event.getStringUTFChars r c =>
    if r ∈ t.refs then some ⟨t.refs, (r, c) :: t.chars⟩ else none
  | Event.releaseStringUTFChars r c =>
    if (r, c) ∈ t.chars then some ⟨t.refs, t.chars.erase (r, c)⟩ else none
  | Event.deleteLocalRef r =>
    if r ∈ t.refs then some ⟨t.refs.erase r, t.chars⟩ else none
  | Event.newStringUTF _ => some t

/-- Run the tracker over a trace. -/
def track (t : Tracker) : List Event → Option Tracker
  | [] => some t
  | e :: es =>
    match t.step e with
    | none => none
    | some t1 => track t1 es

/-- Checker used in the proofs: every call succeeds on the tracker, leaves at
most one reference and one buffer outstanding, and every element is fetched
with nothing outstanding. -/
def scopedFrom (t : Tracker) : List Event → Bool
  | [] => true
  | e :: es =>
    (!e.isGetElement || decide (t = Tracker.empty)) &&
    match t.step e with
    | none => false
    | some t1 =>
      decide (t1.refs.length ≤ 1) && decide (t1.chars.length ≤ 1) && scopedFrom t1 es

/-! ## Integer addition -/

theorem toBits_lt (a : Int) : toBits a < 4294967296 := by
  unfold toBits; omega

theorem ofBits_toBits (a : Int) (ha : IsJInt a) : ofBits (toBits a) = a := by
  unfold IsJInt at ha
  unfold ofBits toBits
  split <;> omega

theorem addNumbers_cases (a b : Int) (ha : IsJInt a) (hb : IsJInt b) :
    addNumbers a b =
      if 2147483648 ≤ a + b then a + b - 4294967296
      else if a + b < -2147483648 then a + b + 4294967296
      else a + b := by
  unfold IsJInt at ha hb
  unfold addNumbers ofBits add32 toBits twoPow32
  split <;> split <;> (try split) <;> omega

theorem isJInt_addNumbers (a b : Int) (ha : IsJInt a) (hb : IsJInt b) :
    IsJInt (addNumbers a b) := by
  rw [addNumbers_cases a b ha hb]
  unfold IsJInt at *
  split <;> (try split) <;> omega

/-- Claim C3: for all 32-bit signed `a` and `b`, `addNumbers a b` is a 32-bit
signed integer, it is the signed two's-complement value of `(a + b) mod 2^32`
(so it wraps around on overflow and is the exact sum otherwise), and
`addNumbers 2 3 = 5`, `addNumbers (-1) 1 = 0`,
`addNumbers 2147483647 1 = -2147483648`. -/
theorem addNumbers_wraps (a b : Int) (ha : IsJInt a) (hb : IsJInt b) :
    IsJInt (addNumbers a b) ∧
    addNumbers a b = ofBits ((a + b) % 4294967296).toNat ∧
    (addNumbers a b - (a + b)) % 4294967296 = 0 ∧
    (IsJInt (a + b) → addNumbers a b = a + b) ∧
    (2147483648 ≤ a + b → addNumbers a b = a + b - 4294967296) ∧
    (a + b < -2147483648 → addNumbers a b = a + b + 4294967296) ∧
    addNumbers 2 3 = 5 ∧ addNumbers (-1) 1 = 0 ∧
    addNumbers 2147483647 1 = -2147483648 := by
  have hc := addNumbers_cases a b ha hb
  refine ⟨isJInt_addNumbers a b ha hb, ?_, ?_, ?_, ?_, ?_, by decide, by decide, by decide⟩
  · rw [hc]
    unfold IsJInt at ha hb
    unfold ofBits
    split <;> split <;> (try split) <;> omega
  · rw [hc]
    split <;> (try split) <;> omega
  · intro h
    unfold IsJInt at h
    rw [hc]
    split <;> (try split) <;> omega
  · intro h
    rw [hc, if_pos h]
  · intro h
    unfold IsJInt at ha hb
    rw [hc]
    split <;> omega

/-- Witness for C3 at the overflowing pair `(2147483647, 1)`. -/
theorem addNumbers_wraps_witness :
    IsJInt (addNumbers 2147483647 1) ∧
    addNumbers 2147483647 1 = ofBits ((2147483647 + 1 : Int) % 4294967296).toNat ∧
    (addNumbers 2147483647 1 - (2147483647 + 1)) % 4294967296 = 0 ∧
    (IsJInt (2147483647 + 1) → addNumbers 2147483647 1 = 2147483647 + 1) ∧
    (2147483648 ≤ (2147483647 + 1 : Int) →
      addNumbers 2147483647 1 = 2147483647 + 1 - 4294967296) ∧
    ((2147483647 + 1 : Int) < -2147483648 →
      addNumbers 2147483647 1 = 2147483647 + 1 + 4294967296) ∧
    addNumbers 2 3 = 5 ∧ addNumbers (-1) 1 = 0 ∧
    addNumbers 2147483647 1 = -2147483648 :=
  addNumbers_wraps 2147483647 1 (by decide) (by decide)

/-- Claim C10: on 32-bit integers `addNumbers` is closed, commutative, has `0`
as identity, is associative also when intermediate sums overflow, and every
element has an inverse: a commutative group under wrap-around. -/
theorem addNumbers_comm_group (a b c : Int) (ha : IsJInt a) (hb : IsJInt b)
    (hc : IsJInt c) :
    IsJInt (addNumbers a b) ∧
    addNumbers a b = addNumbers b a ∧
    addNumbers a 0 = a ∧
    addNumbers (addNumbers a b) c = addNumbers a (addNumbers b c) ∧
    (∃ d : Int, IsJInt d ∧ addNumbers a d = 0) := by
  have h0 : IsJInt 0 := by decide
  have hab := isJInt_addNumbers a b ha hb
  have hbc := isJInt_addNumbers b c hb hc
  refine ⟨hab, ?_, ?_, ?_, ?_⟩
  · rw [addNumbers_cases a b ha hb, addNumbers_cases b a hb ha, Int.add_comm a b]
  · rw [addNumbers_cases a 0 ha h0]
    unfold IsJInt at ha
    split <;> (try split) <;> omega
  · rw [addNumbers_cases _ c hab hc, addNumbers_cases a _ ha hbc,
      addNumbers_cases a b ha hb, addNumbers_cases b c hb hc]
    unfold IsJInt at ha hb hc
    split_ifs <;> omega
  · by_cases hmin : a = -2147483648
    · exact ⟨a, ha, by subst hmin; decide⟩
    · have hd : IsJInt (-a) := by
        unfold IsJInt at *
        omega
      refine ⟨-a, hd, ?_⟩
      rw [addNumbers_cases a (-a) ha hd]
      split <;> (try split) <;> omega

/-- Witness for C10 with overflowing intermediate sums. -/
theorem addNumbers_comm_group_witness :
    IsJInt (addNumbers 2147483647 2147483647) ∧
    addNumbers 2147483647 2147483647 = addNumbers 2147483647 2147483647 ∧
    addNumbers 2147483647 0 = 2147483647 ∧
    addNumbers (addNumbers 2147483647 2147483647) (-2147483648) =
      addNumbers 2147483647 (addNumbers 2147483647 (-2147483648)) ∧
    (∃ d : Int, IsJInt d ∧ addNumbers 2147483647 d = 0) :=
  addNumbers_comm_group 2147483647 2147483647 (-2147483648)
    (by decide) (by decide) (by decide)

/-! ## The loop of `processStringArray` -/

theorem historyAt_eq (host : Host) (n : Nat) :
    historyAt host n =
      Event.getArrayLength :: loopEvents (refAt host) (charsAt host) n := by
  induction n with
  | zero => simp [historyAt, loopEvents]
  | succ n ih =>
    simp only [historyAt, loopEvents, List.range_succ, List.flatMap_append,
      List.flatMap_singleton, List.flatMap_nil, List.append_nil] at ih ⊢
    rw [ih]
    simp [refAt, charsAt, ih]

theorem processLoop_spec (host : Host) (suf : List String) :
    ∀ (pre : List String) (result : String), host.elems = pre ++ suf →
      0 < pre.length →
      processLoop host host.elems.length pre.length result
          (historyAt host pre.length) =
        some (result ++ sepConcat suf, historyAt host host.elems.length) := by
  induction suf with
  | nil =>
    intro pre result h _
    have hl : host.elems.length = pre.length := by simp [h]
    rw [processLoop, hl]
    simp [sepConcat]
  | cons s rest ih =>
    intro pre result h hpos
    have hlt : pre.length < host.elems.length := by simp [h]
    have hget : host.elems[pre.length]? = some s := by
      rw [h, List.getElem?_append_right (Nat.le_refl _)]
      simp
    have h2 : host.elems = (pre ++ [s]) ++ rest := by simp [h]
    have ih2 := ih (pre ++ [s]) (result ++ ", " ++ s) h2 (by simp)
    rw [processLoop]
    simp only [hlt, if_true, GetObjectArrayElement, hget, GetStringUTFChars,
      ReleaseStringUTFChars, DeleteLocalRef, hpos, gt_iff_lt]
    simp only [List.length_append, List.length_singleton, historyAt, iterEvents] at ih2
    simp only [List.append_assoc, List.singleton_append, List.cons_append,
      List.nil_append] at ih2 ⊢
    rw [ih2]
    simp [sepConcat, String.append_assoc]

theorem intercalate_go_eq (rest : List String) :
    ∀ acc : String, String.intercalate.go acc ", " rest = acc ++ sepConcat rest := by
  induction rest with
  | nil => intro acc; simp [String.intercalate.go, sepConcat]
  | cons s rest ih =>
    intro acc
    simp [String.intercalate.go, sepConcat, ih, String.append_assoc]

theorem intercalate_cons (s : String) (rest : List String) :
    ", ".intercalate (s :: rest) = s ++ sepConcat rest := by
  simp [String.intercalate, intercalate_go_eq]

/-- The full behaviour of `processStringArray`: it returns, the text is the
label followed by the joined elements, and the trace is the length query, the
four calls of each iteration in index order, and the final `NewStringUTF`. -/
theorem processStringArray_eq (host : Host) :
    processStringArray host =
      some ("Processed strings: " ++ ", ".intercalate host.elems,
        Event.getArrayLength ::
          (loopEvents (refAt host) (charsAt host) host.elems.length ++
            [Event.newStringUTF
              ("Processed strings: " ++ ", ".intercalate host.elems)])) := by
  cases hel : host.elems with
  | nil =>
    unfold processStringArray
    simp only [GetArrayLength, hel, List.length_nil, List.nil_append]
    rw [processLoop]
    simp [NewStringUTF, String.intercalate, loopEvents]
  | cons s rest =>
    have hspec := processLoop_spec host rest [s] ("Processed strings: " ++ s)
      (by simp [hel]) (by simp)
    have hget : host.elems[0]? = some s := by simp [hel]
    have hlt : 0 < host.elems.length := by simp [hel]
    unfold processStringArray
    simp only [GetArrayLength, List.nil_append]
    rw [processLoop]
    simp only [hlt, if_true, GetObjectArrayElement, hget, GetStringUTFChars,
      ReleaseStringUTFChars, DeleteLocalRef, gt_iff_lt, Nat.lt_irrefl, if_false]
    simp only [List.length_singleton, historyAt, iterEvents, List.append_assoc,
      List.singleton_append, List.cons_append, List.nil_append, Nat.zero_add] at hspec ⊢
    rw [hspec]
    simp only [NewStringUTF, historyAt_eq, ← hel, intercalate_cons, String.append_assoc]
    simp [hel, intercalate_cons]

/-! ## Properties of the trace -/

theorem track_append (l1 : List Event) :
    ∀ (t t1 : Tracker) (l2 : List Event), track t l1 = some t1 →
      track t (l1 ++ l2) = track t1 l2 := by
  induction l1 with
  | nil => intro t t1 l2 h; simp [track] at h; simp [h]
  | cons e es ih =>
    intro t t1 l2 h
    simp only [track, List.cons_append] at h ⊢
    cases hs : t.step e with
    | none => simp [hs] at h
    | some t2 =>
      simp only [hs] at h ⊢
      exact ih t2 t1 l2 h

theorem scopedFrom_append (l1 : List Event) :
    ∀ (t t1 : Tracker) (l2 : List Event), scopedFrom t l1 = true →
      track t l1 = some t1 → scopedFrom t1 l2 = true →
      scopedFrom t (l1 ++ l2) = true := by
  induction l1 with
  | nil => intro t t1 l2 _ h h2; simp [track] at h; simpa [h] using h2
  | cons e es ih =>
    intro t t1 l2 h1 h h2
    simp only [track, scopedFrom, List.cons_append] at h h1 ⊢
    cases hs : t.step e with
    | none => simp [hs] at h
    | some t2 =>
      simp only [hs, Bool.and_eq_true] at h h1 ⊢
      exact ⟨h1.1, ⟨h1.2.1.1, h1.2.1.2⟩, ih t2 t1 l2 h1.2.2 h h2⟩

theorem track_iterEvents (i r c : Nat) :
    track Tracker.empty (iterEvents i r c) = some Tracker.empty := by
  simp [track, iterEvents, Tracker.step, Tracker.empty]

theorem scopedFrom_iterEvents (i r c : Nat) :
    scopedFrom Tracker.empty (iterEvents i r c) = true := by
  simp [scopedFrom, iterEvents, Tracker.step, Tracker.empty, Event.isGetElement]

theorem loopEvents_succ (r c : Nat → Nat) (n : Nat) :
    loopEvents r c (n + 1) = loopEvents r c n ++ iterEvents n (r n) (c n) := by
  simp [loopEvents, List.range_succ, List.flatMap_append]

theorem track_loopEvents (r c : Nat → Nat) (n : Nat) :
    track Tracker.empty (loopEvents r c n) = some Tracker.empty := by
  induction n with
  | zero => simp [loopEvents, track]
  | succ n ih =>
    rw [loopEvents_succ, track_append _ _ _ _ ih, track_iterEvents]

theorem scopedFrom_loopEvents (r c : Nat → Nat) (n : Nat) :
    scopedFrom Tracker.empty (loopEvents r c n) = true := by
  induction n with
  | zero => simp [loopEvents, scopedFrom]
  | succ n ih =>
    rw [loopEvents_succ]
    exact scopedFrom_append _ _ _ _ ih (track_loopEvents r c n)
      (scopedFrom_iterEvents n (r n) (c n))

theorem track_fullTrace (r c : Nat → Nat) (n : Nat) (text : String) :
    track Tracker.empty
      (Event.getArrayLength :: (loopEvents r c n ++ [Event.newStringUTF text])) =
      some Tracker.empty := by
  simp only [track, Tracker.step]
  rw [track_append _ _ _ _ (track_loopEvents r c n)]
  simp [track, Tracker.step]

theorem scopedFrom_fullTrace (r c : Nat → Nat) (n : Nat) (text : String) :
    scopedFrom Tracker.empty
      (Event.getArrayLength :: (loopEvents r c n ++ [Event.newStringUTF text])) =
      true := by
  have h := scopedFrom_append _ _ _ [Event.newStringUTF text]
    (scopedFrom_loopEvents r c n) (track_loopEvents r c n)
    (by simp [scopedFrom, Tracker.step, Tracker.empty, Event.isGetElement])
  simp only [scopedFrom, Tracker.step, Event.isGetElement]
  simpa [Tracker.empty] using h

theorem scopedFrom_take (tr : List Event) :
    ∀ (t : Tracker) (k : Nat), scopedFrom t tr = true →
      t.refs.length ≤ 1 → t.chars.length ≤ 1 →
      ∃ t1, track t (tr.take k) = some t1 ∧ t1.refs.length ≤ 1 ∧
        t1.chars.length ≤ 1 ∧
        (∀ e, tr[k]? = some e → e.isGetElement = true → t1 = Tracker.empty) := by
  induction tr with
  | nil => intro t k _ hr hc; exact ⟨t, by simp [track], hr, hc, by simp⟩
  | cons e es ih =>
    intro t k h hr hc
    cases k with
    | zero =>
      refine ⟨t, by simp [track], hr, hc, ?_⟩
      intro e1 he1 hget
      simp only [List.getElem?_cons_zero, Option.some.injEq] at he1
      subst he1
      simp only [scopedFrom, Bool.and_eq_true, Bool.or_eq_true, hget, Bool.not_true,
        Bool.false_eq_true, false_or, decide_eq_true_eq] at h
      exact h.1
    | succ k =>
      simp only [scopedFrom, Bool.and_eq_true] at h
      cases hs : t.step e with
      | none => simp [hs] at h
      | some t2 =>
        simp only [hs, Bool.and_eq_true, decide_eq_true_eq] at h
        obtain ⟨t1, h1, h2, h3, h4⟩ := ih t2 k h.2.2 h.2.1.1 h.2.1.2
        refine ⟨t1, by simp [track, hs, h1], h2, h3, ?_⟩
        intro e1 he1
        exact h4 e1 (by simpa using he1)

theorem loopEvents_length (r c : Nat → Nat) (n : Nat) :
    (loopEvents r c n).length = 4 * n := by
  induction n with
  | zero => simp [loopEvents]
  | succ n ih => rw [loopEvents_succ, List.length_append, ih]; simp [iterEvents]; omega

theorem loopEvents_split (r c : Nat → Nat) (i n : Nat) (h : i < n) :
    ∃ rest, loopEvents r c n =
      loopEvents r c i ++ (iterEvents i (r i) (c i) ++ rest) := by
  induction n with
  | zero => omega
  | succ n ih =>
    rw [loopEvents_succ]
    by_cases hi : i = n
    · subst hi
      exact ⟨[], by simp⟩
    · obtain ⟨rest, hrest⟩ := ih (by omega)
      exact ⟨rest ++ iterEvents n (r n) (c n), by rw [hrest]; simp⟩

theorem fullTrace_window (r c : Nat → Nat) (i n : Nat) (h : i < n) (text : String) :
    ((Event.getArrayLength ::
        (loopEvents r c n ++ [Event.newStringUTF text])).drop (1 + 4 * i)).take 4 =
      iterEvents i (r i) (c i) := by
  obtain ⟨rest, hrest⟩ := loopEvents_split r c i n h
  have hlen := loopEvents_length r c i
  rw [hrest, Nat.add_comm 1 (4 * i), List.drop_succ_cons, List.append_assoc,
    List.drop_left' hlen, List.append_assoc]
  exact List.take_left' (by simp [iterEvents])

theorem countP_loopEvents (p : Event → Bool) (r c : Nat → Nat) (n : Nat)
    (hp : ∀ i a b, (iterEvents i a b).countP p = 1) :
    (loopEvents r c n).countP p = n := by
  induction n with
  | zero => simp [loopEvents]
  | succ n ih => rw [loopEvents_succ, List.countP_append, ih, hp]

theorem countP_fullTrace (p : Event → Bool) (r c : Nat → Nat) (n : Nat)
    (text : String) (hp : ∀ i a b, (iterEvents i a b).countP p = 1)
    (h0 : p Event.getArrayLength = false) (h1 : p (Event.newStringUTF text) = false) :
    (Event.getArrayLength ::
      (loopEvents r c n ++ [Event.newStringUTF text])).countP p = n := by
  rw [List.countP_cons, List.countP_append, countP_loopEvents p r c n hp]
  simp [h0, h1]

theorem elementIndex_loopEvents (r c : Nat → Nat) (n : Nat) :
    (loopEvents r c n).filterMap Event.elementIndex = List.range n := by
  induction n with
  | zero => simp [loopEvents]
  | succ n ih =>
    rw [loopEvents_succ, List.filterMap_append, ih, List.range_succ]
    simp [iterEvents, Event.elementIndex]

/-! ## The claims about `processStringArray` and `stringFromJNI` -/

theorem sepConcat_append (xs : List String) (y : String) :
    sepConcat (xs ++ [y]) = sepConcat xs ++ ", " ++ y := by
  induction xs with
  | nil => simp [sepConcat]
  | cons x xs ih => simp [sepConcat, ih, String.append_assoc]

theorem sepConcat_length (xs : List String) :
    (sepConcat xs).length = (xs.map String.length).sum + 2 * xs.length := by
  induction xs with
  | nil => simp [sepConcat]
  | cons x xs ih =>
    have h2 : ", ".length = 2 := by decide
    simp only [sepConcat, String.length_append, ih, h2, List.map_cons, List.sum_cons,
      List.length_cons]
    omega

theorem sepConcat_data (xs : List String) :
    (sepConcat xs).data = (xs.map (fun s => [',', ' '] ++ s.data)).flatten := by
  induction xs with
  | nil => simp [sepConcat]
  | cons x xs ih =>
    have h2 : ", ".data = [',', ' '] := by decide
    simp [sepConcat, String.data_append, ih, h2]

theorem resultText_eq (host : Host) :
    resultText host = some ("Processed strings: " ++ ", ".intercalate host.elems) := by
  simp [resultText, processStringArray_eq]

/-- Claim C1: for every sequence of strings handed over by the host,
`processStringArray` returns the label `"Processed strings: "` followed by the
elements in their order joined with `", "` (no leading or trailing separator);
on `["a","b","c"]` the text is `"Processed strings: a, b, c"`. -/
theorem processStringArray_joins (host : Host) :
    resultText host = some ("Processed strings: " ++ ", ".intercalate host.elems) ∧
    (resultText host).map String.data =
      some ("Processed strings: ".data ++
        List.intercalate [',', ' '] (host.elems.map String.data)) ∧
    resultText ⟨["a", "b", "c"], host.allocRef, host.allocChars⟩ =
      some "Processed strings: a, b, c" := by
  refine ⟨resultText_eq host, ?_, ?_⟩
  · rw [resultText_eq]
    simp only [Option.map_some', String.data_append, Option.some.injEq,
      List.append_cancel_left_eq]
    cases hel : host.elems with
    | nil => simp [String.intercalate, List.intercalate]
    | cons x xs =>
      rw [intercalate_cons, String.data_append, sepConcat_data]
      simp only [List.intercalate, List.map_cons]
      clear hel
      induction xs generalizing x with
      | nil => simp
      | cons y ys ih =>
        have := ih y
        simp only [List.map_cons, List.intersperse_cons_cons, List.flatten_cons,
          List.append_assoc] at this ⊢
        rw [← this]
  · rw [resultText_eq]
    show some ("Processed strings: " ++ ", ".intercalate ["a", "b", "c"]) =
      some "Processed strings: a, b, c"
    decide

/-- Claim C2: on the empty array `processStringArray` returns the label alone,
`"Processed strings: "` with its trailing space, and the only host calls are
the length query and the final `NewStringUTF`: no element is accessed. -/
theorem processStringArray_empty (allocRef allocChars : List Event → Nat) :
    processStringArray ⟨[], allocRef, allocChars⟩ =
      some ("Processed strings: ",
        [Event.getArrayLength, Event.newStringUTF "Processed strings: "]) ∧
    "Processed strings: ".data.getLast? = some ' ' ∧
    (resultTrace ⟨[], allocRef, allocChars⟩).map (List.countP Event.isGetElement) =
      some 0 := by
  have h : processStringArray ⟨[], allocRef, allocChars⟩ =
      some ("Processed strings: ",
        [Event.getArrayLength, Event.newStringUTF "Processed strings: "]) := by
    rw [processStringArray_eq]
    simp [loopEvents, String.intercalate]
  refine ⟨h, by decide, ?_⟩
  rw [resultTrace, h]
  simp [Event.isGetElement]

/-- Claim C4: `processStringArray` returns, and its trace is the length query,
then for each index in order the fetch of the element, the borrow of its
characters, the release of that same (string, characters) pair and the
deletion of that same local reference, then `NewStringUTF`.  The tracker
accepts the whole trace (no release without a matching outstanding acquire,
hence no double release) and ends with nothing outstanding, and each of the
four kinds of call occurs exactly `n` times. -/
theorem processStringArray_releases_all (host : Host) :
    ∃ text trace, processStringArray host = some (text, trace) ∧
      trace = Event.getArrayLength ::
        (loopEvents (refAt host) (charsAt host) host.elems.length ++
          [Event.newStringUTF text]) ∧
      track Tracker.empty trace = some Tracker.empty ∧
      trace.countP Event.isGetElement = host.elems.length ∧
      trace.countP Event.isGetChars = host.elems.length ∧
      trace.countP Event.isReleaseChars = host.elems.length ∧
      trace.countP Event.isDeleteRef = host.elems.length := by
  refine ⟨_, _, processStringArray_eq host, rfl, track_fullTrace _ _ _ _, ?_, ?_, ?_, ?_⟩ <;>
    exact countP_fullTrace _ _ _ _ _ (by intro i a b; simp [iterEvents, List.countP_cons,
      Event.isGetElement, Event.isGetChars, Event.isReleaseChars, Event.isDeleteRef])
      rfl rfl

/-- Claim C5: whatever host calls were made before, `stringFromJNI` returns
the text `"Hello from C++"`, of 14 characters, and its only host call is the
`NewStringUTF` creating that text. -/
theorem stringFromJNI_fixed (trace : List Event) :
    (stringFromJNI trace).1 = "Hello from C++" ∧
    (stringFromJNI trace).1.length = 14 ∧
    (stringFromJNI trace).2 = trace ++ [Event.newStringUTF "Hello from C++"] := by
  refine ⟨rfl, ?_, rfl⟩
  show "Hello from C++".length = 14
  decide

/-- Claim C8: in the trace of `processStringArray` every prefix is accepted by
the tracker with at most one local reference and at most one character buffer
outstanding; the indices fetched are `0, 1, ..., n-1` in this order, each once;
every element is fetched with nothing outstanding (all earlier borrows are
released); and the four calls on element `i` are consecutive. -/
theorem processStringArray_scoped (host : Host) :
    ∃ text calls, processStringArray host = some (text, calls) ∧
      (∀ k, ∃ t, track Tracker.empty (calls.take k) = some t ∧
        t.refs.length ≤ 1 ∧ t.chars.length ≤ 1) ∧
      calls.filterMap Event.elementIndex = List.range host.elems.length ∧
      (∀ k e, calls[k]? = some e → e.isGetElement = true →
        track Tracker.empty (calls.take k) = some Tracker.empty) ∧
      (∀ i, i < host.elems.length →
        (calls.drop (1 + 4 * i)).take 4 =
          iterEvents i (refAt host i) (charsAt host i)) := by
  refine ⟨_, _, processStringArray_eq host, ?_, ?_, ?_, ?_⟩
  · intro k
    obtain ⟨t, h1, h2, h3, _⟩ := scopedFrom_take _ Tracker.empty k
      (scopedFrom_fullTrace (refAt host) (charsAt host) host.elems.length
        ("Processed strings: " ++ ", ".intercalate host.elems))
      (by simp [Tracker.empty]) (by simp [Tracker.empty])
    exact ⟨t, h1, h2, h3⟩
  · rw [List.filterMap_cons, List.filterMap_append, elementIndex_loopEvents]
    simp [Event.elementIndex]
  · intro k e he hget
    obtain ⟨t, h1, _, _, h4⟩ := scopedFrom_take _ Tracker.empty k
      (scopedFrom_fullTrace (refAt host) (charsAt host) host.elems.length
        ("Processed strings: " ++ ", ".intercalate host.elems))
      (by simp [Tracker.empty]) (by simp [Tracker.empty])
    rw [h1, h4 e he hget]
  · intro i hi
    exact fullTrace_window _ _ i _ hi _

/-- Witness for C8 on a two-element array with a host that reuses handles. -/
theorem processStringArray_scoped_witness :
    ∃ text calls,
      processStringArray ⟨["a", "b"], fun _ => 7, fun _ => 9⟩ = some (text, calls) ∧
      (∀ k, ∃ t, track Tracker.empty (calls.take k) = some t ∧
        t.refs.length ≤ 1 ∧ t.chars.length ≤ 1) ∧
      calls.filterMap Event.elementIndex = List.range 2 ∧
      (∀ k e, calls[k]? = some e → e.isGetElement = true →
        track Tracker.empty (calls.take k) = some Tracker.empty) ∧
      (∀ i, i < 2 →
        (calls.drop (1 + 4 * i)).take 4 =
          iterEvents i (refAt ⟨["a", "b"], fun _ => 7, fun _ => 9⟩ i)
            (charsAt ⟨["a", "b"], fun _ => 7, fun _ => 9⟩ i)) :=
  processStringArray_scoped ⟨["a", "b"], fun _ => 7, fun _ => 9⟩

/-- Claim C9: for a non-empty `xs`, the text for `xs ++ [y]` is the text for
`xs` followed by `", "` and `y`; the text for `[y]` is the label followed by
`y`; and the text for `n ≥ 1` elements has length
`19 + (sum of the element lengths) + 2 * (n - 1)`. -/
theorem processStringArray_snoc (ar ac ar2 ac2 : List Event → Nat)
    (xs : List String) (y : String) (hne : xs ≠ []) :
    (resultText ⟨xs, ar, ac⟩).isSome = true ∧
    resultText ⟨xs ++ [y], ar2, ac2⟩ =
      (resultText ⟨xs, ar, ac⟩).map (fun t => t ++ ", " ++ y) ∧
    resultText ⟨[y], ar, ac⟩ = some ("Processed strings: " ++ y) ∧
    (resultText ⟨xs, ar, ac⟩).map String.length =
      some (19 + (xs.map String.length).sum + 2 * (xs.length - 1)) := by
  have hlabel : "Processed strings: ".length = 19 := by decide
  cases xs with
  | nil => exact absurd rfl hne
  | cons x rest =>
    simp only [resultText_eq, List.cons_append, intercalate_cons, sepConcat_append]
    refine ⟨rfl, ?_, ?_, ?_⟩
    · simp [String.append_assoc]
    · simp [sepConcat]
    · simp only [Option.map_some', String.length_append, sepConcat_length, hlabel,
        List.map_cons, List.sum_cons, List.length_cons, Option.some.injEq]
      omega

/-- Witness for C9 with `xs = ["a", "bc"]` and `y = "d"`. -/
theorem processStringArray_snoc_witness :
    (resultText ⟨["a", "bc"], fun _ => 0, fun _ => 0⟩).isSome = true ∧
    resultText ⟨["a", "bc"] ++ ["d"], fun _ => 0, fun _ => 0⟩ =
      (resultText ⟨["a", "bc"], fun _ => 0, fun _ => 0⟩).map (fun t => t ++ ", " ++ "d") ∧
    resultText ⟨["d"], fun _ => 0, fun _ => 0⟩ = some ("Processed strings: " ++ "d") ∧
    (resultText ⟨["a", "bc"], fun _ => 0, fun _ => 0⟩).map String.length =
      some (19 + (["a", "bc"].map String.length).sum + 2 * (["a", "bc"].length - 1)) :=
  processStringArray_snoc (fun _ => 0) (fun _ => 0) (fun _ => 0) (fun _ => 0)
    ["a", "bc"] "d" (by decide)

/-! ## `getSystemInfo` -/

theorem digitChar_isDigit (d : Nat) (h : d < 10) : (Nat.digitChar d).isDigit = true := by
  interval_cases d <;> decide

theorem toDigitsCore_isDigit (f : Nat) :
    ∀ (n : Nat) (ds : List Char), (∀ ch ∈ ds, ch.isDigit = true) →
      ∀ ch ∈ Nat.toDigitsCore 10 f n ds, ch.isDigit = true := by
  induction f with
  | zero => intro n ds h; simpa [Nat.toDigitsCore] using h
  | succ f ih =>
    intro n ds h
    have hd : (Nat.digitChar (n % 10)).isDigit = true :=
      digitChar_isDigit _ (Nat.mod_lt _ (by decide))
    have hcons : ∀ ch ∈ Nat.digitChar (n % 10) :: ds, ch.isDigit = true := by
      intro ch hch
      rcases List.mem_cons.mp hch with h1 | h1
      · rw [h1]; exact hd
      · exact h ch h1
    simp only [Nat.toDigitsCore]
    split
    · exact hcons
    · exact ih _ _ hcons

theorem repr_isDigit (n : Nat) : ∀ ch ∈ (toString n).data, ch.isDigit = true := by
  show ∀ ch ∈ (Nat.toDigits 10 n).asString.data, ch.isDigit = true
  exact toDigitsCore_isDigit _ _ _ (by simp)

theorem repr_count_newline (n : Nat) : (toString n).data.count '\n' = 0 := by
  rw [List.count_eq_zero]
  intro hmem
  have := repr_isDigit n _ hmem
  revert this
  decide

theorem getSystemInfo_text (cfg : BuildConfig) (trace : List Event) :
    (getSystemInfo cfg trace).1 =
      "Native Library Info:\n- Compiler: " ++ compilerText cfg ++
        "\n- Architecture: " ++ archText cfg ++ "\n- C++ Standard: " ++
        toString cfg.cplusplus := by
  have h0 : "Native Library Info:\n" ++ "- Compiler: " =
      "Native Library Info:\n- Compiler: " := by decide
  rw [← h0]
  simp only [getSystemInfo, NewStringUTF, compilerText, archText]
  cases cfg.defClang <;> cases cfg.defGnuc <;> cases cfg.defAarch64 <;>
    cases cfg.defArm <;> cases cfg.defX86_64 <;> cases cfg.defI386 <;>
    simp only [if_true, if_false, Bool.false_eq_true, String.append_assoc]

theorem archText_mem (cfg : BuildConfig) :
    archText cfg ∈ ["ARM64", "ARM32", "x86_64", "x86", "Unknown"] := by
  unfold archText
  cases cfg.defAarch64 <;> cases cfg.defArm <;> cases cfg.defX86_64 <;>
    cases cfg.defI386 <;> decide

theorem archText_count_newline (cfg : BuildConfig) :
    (archText cfg).data.count '\n' = 0 := by
  have h := archText_mem cfg
  generalize archText cfg = a at h
  simp only [List.mem_cons, List.mem_singleton, List.not_mem_nil, or_false] at h
  rcases h with h | h | h | h | h <;> subst h <;> decide

/-- Claim C7: for every build configuration the text returned by
`getSystemInfo` is the four lines `Native Library Info:`, `- Compiler: C`,
`- Architecture: A`, `- C++ Standard: S` joined by line breaks, where `C` is
`Clang ` plus the clang version when `__clang__` is defined (also when
`__GNUC__` is defined too), else `GCC ` plus the GCC version when `__GNUC__` is
defined, else `Unknown`; `A` is one of the five architecture names, chosen by
the first defined macro in the order `__aarch64__`, `__arm__`, `__x86_64__`,
`__i386__`; and `S` is the decimal rendering of `__cplusplus`.  The text has
four lines plus the line breaks, if any, inside the compiler version text. -/
theorem getSystemInfo_form (cfg : BuildConfig) (trace : List Event) :
    (getSystemInfo cfg trace).1 =
      "Native Library Info:\n- Compiler: " ++ compilerText cfg ++
        "\n- Architecture: " ++ archText cfg ++ "\n- C++ Standard: " ++
        toString cfg.cplusplus ∧
    (getSystemInfo cfg trace).1 =
      "\n".intercalate ["Native Library Info:", "- Compiler: " ++ compilerText cfg,
        "- Architecture: " ++ archText cfg,
        "- C++ Standard: " ++ toString cfg.cplusplus] ∧
    (cfg.defClang = true → compilerText cfg = "Clang " ++ cfg.clangVersion) ∧
    (cfg.defClang = false → cfg.defGnuc = true →
      compilerText cfg = "GCC " ++ cfg.gccVersion) ∧
    (cfg.defClang = false → cfg.defGnuc = false → compilerText cfg = "Unknown") ∧
    archText cfg ∈ ["ARM64", "ARM32", "x86_64", "x86", "Unknown"] ∧
    (cfg.defAarch64 = true → archText cfg = "ARM64") ∧
    (cfg.defAarch64 = false → cfg.defArm = true → archText cfg = "ARM32") ∧
    (cfg.defAarch64 = false → cfg.defArm = false → cfg.defX86_64 = true →
      archText cfg = "x86_64") ∧
    (cfg.defAarch64 = false → cfg.defArm = false → cfg.defX86_64 = false →
      cfg.defI386 = true → archText cfg = "x86") ∧
    (cfg.defAarch64 = false → cfg.defArm = false → cfg.defX86_64 = false →
      cfg.defI386 = false → archText cfg = "Unknown") ∧
    (∀ ch ∈ (toString cfg.cplusplus).data, ch.isDigit = true) ∧
    lineCount (getSystemInfo cfg trace).1 =
      4 + (compilerText cfg).data.count '\n' := by
  have htext := getSystemInfo_text cfg trace
  refine ⟨htext, ?_, ?_, ?_, ?_, archText_mem cfg, ?_, ?_, ?_, ?_, ?_,
    repr_isDigit cfg.cplusplus, ?_⟩
  · have h1 : "Native Library Info:\n- Compiler: " =
        "Native Library Info:" ++ ("\n" ++ "- Compiler: ") := by decide
    have h2 : "\n- Architecture: " = "\n" ++ "- Architecture: " := by decide
    have h3 : "\n- C++ Standard: " = "\n" ++ "- C++ Standard: " := by decide
    rw [htext, h1, h2, h3]
    simp only [String.intercalate, String.intercalate.go, String.append_assoc]
  · intro h; simp [compilerText, h]
  · intro h1 h2; simp [compilerText, h1, h2]
  · intro h1 h2; simp [compilerText, h1, h2]
  · intro h; simp [archText, h]
  · intro h1 h2; simp [archText, h1, h2]
  · intro h1 h2 h3; simp [archText, h1, h2, h3]
  · intro h1 h2 h3 h4; simp [archText, h1, h2, h3, h4]
  · intro h1 h2 h3 h4; simp [archText, h1, h2, h3, h4]
  · have c1 : "Native Library Info:\n- Compiler: ".data.count '\n' = 1 := by decide
    have c2 : "\n- Architecture: ".data.count '\n' = 1 := by decide
    have c3 : "\n- C++ Standard: ".data.count '\n' = 1 := by decide
    rw [htext]
    simp only [lineCount, String.data_append, List.count_append, c1, c2, c3,
      archText_count_newline, repr_count_newline]
    omega

/-- Witness for C7: a clang build (which also defines `__GNUC__`) for ARM64. -/
theorem getSystemInfo_form_witness :
    (getSystemInfo ⟨true, "17.0.2", true, "4.2.1", true, false, false, false, 201703⟩ []).1 =
      "Native Library Info:\n- Compiler: Clang 17.0.2\n- Architecture: ARM64\n- C++ Standard: 201703" ∧
    lineCount
      (getSystemInfo ⟨true, "17.0.2", true, "4.2.1", true, false, false, false, 201703⟩ []).1 =
      4 := by
  have h := getSystemInfo_form
    ⟨true, "17.0.2", true, "4.2.1", true, false, false, false, 201703⟩ []
  have hc := h.2.2.1 rfl
  have ha := h.2.2.2.2.2.2.1 rfl
  refine ⟨?_, ?_⟩
  · rw [h.1, hc, ha]
    decide
  · rw [h.2.2.2.2.2.2.2.2.2.2.2.2, hc]
    decide

end NativeLib
